import Mathlib

/-!
Verification development for the documentation caching and impact-analysis core
of the `claude-engineer` documentation tool
(`tools/documentation/{cache,context,generator,handler}.py`).

Modelling conventions, chosen so that every definition is executable and
kernel-reducible (structural recursion only):

* Text that the code *splits or scans character by character* (the
  documentation body, chunks) is modelled as `Str := List Char`; a `String`
  is kept where the code only moves it around whole (paths, names, hashes,
  warnings).  Python `str.split('\n')`, `'\n'.join`, `str.replace`,
  substring `in`, `endswith` are re-implemented over `List Char`
  (`splitOnChar`, `joinStrs`, `replaceList`, `listInfix`, `listStartsWith`)
  because their Lean `String` counterparts do not reduce in the kernel.
* `time.time()` values are modelled as `Int` (seconds); every comparison in
  the source (`now - timestamp > expiry`) is order-theoretic, so nothing is
  lost relative to real-valued timestamps.
* SHA-256 is an external primitive; it is modelled as an abstract
  `hash : String → String` parameter.  Claims that need "different content
  gives a different digest" take that as an explicit hypothesis.
* The filesystem walk `os.walk` is modelled by passing the repository's
  files as an ordered association list `List (String × String)`
  (root-relative path ↦ content), in walk order.  Note the source never
  prunes directories from `os.walk`, so the list contains the files of
  *every* directory, including `.git` etc.
* Python `dict` equality is extensional; `dictBeq` implements it for
  association lists.
-/

set_option maxRecDepth 2048

abbrev Str := List Char

/-- `str.split(c)` for a single-character separator: faithful to Python,
including `splitOnChar c [] = [[]]` (Python `"".split(c) == ['']`). -/
def splitOnChar (c : Char) : List Char → List (List Char)
  | [] => [[]]
  | x :: xs =>
    let r := splitOnChar c xs
    if x = c then [] :: r
    else
      match r with
      | g :: gs => (x :: g) :: gs
      | [] => [[x]]

/-- `sep.join(strings)` for a single-character separator. -/
def joinStrs (c : Char) : List Str → Str
  | [] => []
  | [s] => s
  | s :: rest => s ++ c :: joinStrs c rest

/-- Does `pat` occur as a prefix of `s`? (helper for substring / endswith). -/
def listStartsWith : List Char → List Char → Bool
  | [], _ => true
  | _ :: _, [] => false
  | p :: ps, c :: cs => p == c && listStartsWith ps cs

/-- Python substring test `pat in s` over char lists. -/
def listInfix (pat : List Char) : List Char → Bool
  | [] => pat.isEmpty
  | c :: cs => listStartsWith pat (c :: cs) || listInfix pat cs

/-- Python `needle in hay` on strings. -/
def strIn (needle hay : String) : Bool := listInfix needle.toList hay.toList

/-- Python `s.endswith(suffix)`. -/
def strEndsWith (s suffix : String) : Bool :=
  listStartsWith suffix.toList.reverse s.toList.reverse

/-- Fueled left-to-right non-overlapping replacement, the semantics of Python
`str.replace(pat, rep)`.  The fuel starts at the length of the string and
each step consumes at least one character, so it never runs out. -/
def replaceListAux (pat rep : List Char) : Nat → List Char → List Char
  | 0, s => s
  | _ + 1, [] => []
  | fuel + 1, c :: rest =>
    if pat ≠ [] && listStartsWith pat (c :: rest) then
      rep ++ replaceListAux pat rep fuel ((c :: rest).drop pat.length)
    else
      c :: replaceListAux pat rep fuel rest

/-- Python `s.replace(pat, rep)` over char lists. -/
def replaceList (pat rep s : List Char) : List Char :=
  replaceListAux pat rep s.length s

/-- `file_path.replace('/', '.').replace('.py', '')` from
`ContextProvider._analyze_impact` (context.py line 234). -/
def pyModuleName (file_path : String) : String :=
  String.mk (replaceList ".py".toList [] (replaceList ['/'] ['.'] file_path.toList))

/-- The code points Python `str.isspace` reports as whitespace — `str.split()`
with no argument splits on runs of exactly these (tab, LF, VT, FF, CR,
FS/GS/RS/US, space, NEL, NBSP, and the Unicode space separators). -/
def isPySpace (c : Char) : Bool :=
  ([9, 10, 11, 12, 13, 28, 29, 30, 31, 32, 133, 160, 5760,
    8192, 8193, 8194, 8195, 8196, 8197, 8198, 8199, 8200, 8201, 8202,
    8232, 8233, 8239, 8287, 12288] : List Nat).contains c.toNat

/-- Split at every character selected by the predicate (empty fields are
kept; the caller drops them, which together gives Python
`str.split()`-with-no-argument semantics on whitespace runs). -/
def splitOnPred (p : Char → Bool) : List Char → List (List Char)
  | [] => [[]]
  | x :: xs =>
    let r := splitOnPred p xs
    if p x then [] :: r
    else
      match r with
      | g :: gs => (x :: g) :: gs
      | [] => [[x]]

/-- `len(line.split())`: the approximate token count of one line
(cache.py line 75) — the number of maximal runs of non-whitespace
characters, i.e. Python `str.split()` with no argument followed by `len`. -/
def wordCount (line : Str) : Nat :=
  ((splitOnPred isPySpace line).filter (fun w => !w.isEmpty)).length

theorem splitOnChar_ne_nil (c : Char) (l : List Char) : splitOnChar c l ≠ [] := by
  cases l with
  | nil => simp [splitOnChar]
  | cons x xs =>
    simp only [splitOnChar]
    split
    · simp
    · split <;> simp

theorem joinStrs_cons (c : Char) (s : Str) (rest : List Str) (h : rest ≠ []) :
    joinStrs c (s :: rest) = s ++ c :: joinStrs c rest := by
  cases rest with
  | nil => exact absurd rfl h
  | cons t ts => rfl

theorem joinStrs_splitOnChar (c : Char) (l : List Char) :
    joinStrs c (splitOnChar c l) = l := by
  induction l with
  | nil => rfl
  | cons x xs ih =>
    simp only [splitOnChar]
    by_cases hx : x = c
    · rw [if_pos hx, joinStrs_cons c [] _ (splitOnChar_ne_nil c xs), ih, hx]
      rfl
    · rw [if_neg hx]
      rcases hr : splitOnChar c xs with _ | ⟨g, gs⟩
      · exact absurd hr (splitOnChar_ne_nil c xs)
      · rcases gs with _ | ⟨g2, gs2⟩
        · simp only [joinStrs]
          have := ih
          rw [hr] at this
          simp only [joinStrs] at this
          rw [this]
        · simp only [joinStrs]
          have := ih
          rw [hr] at this
          rw [joinStrs_cons c g (g2 :: gs2) (by simp)] at this
          rw [← this]
          rfl

theorem joinStrs_append (c : Char) (a b : List Str) (ha : a ≠ []) (hb : b ≠ []) :
    joinStrs c (a ++ b) = joinStrs c a ++ c :: joinStrs c b := by
  induction a with
  | nil => exact absurd rfl ha
  | cons s rest ih =>
    cases rest with
    | nil =>
      rw [List.singleton_append, joinStrs_cons c s b hb]
      rfl
    | cons t ts =>
      rw [List.cons_append, joinStrs_cons c s _ (by simp),
        joinStrs_cons c s (t :: ts) (by simp), ih (by simp)]
      simp

/-- Joining already-joined groups equals joining the flattened groups,
provided no group is empty (an empty group would contribute a spurious
separator — exactly the failure mode of `cache_doc`'s chunking). -/
theorem joinStrs_map_join (c : Char) (groups : List (List Str))
    (h : ∀ g ∈ groups, g ≠ []) :
    joinStrs c (groups.map (joinStrs c)) = joinStrs c groups.flatten := by
  induction groups with
  | nil => rfl
  | cons g gs ih =>
    rcases gs with _ | ⟨g2, gs2⟩
    · simp [joinStrs]
    · have hg : g ≠ [] := h g (by simp)
      have hg2ne : (g2 :: gs2).flatten ≠ [] := by
        have : g2 ≠ [] := h g2 (by simp)
        simp only [List.flatten_cons]
        intro hemp
        rcases List.append_eq_nil.mp hemp with ⟨h1, _⟩
        exact this h1
      rw [List.map_cons, joinStrs_cons c _ _ (by simp), List.flatten_cons,
        joinStrs_append c g _ hg hg2ne, ih (fun x hx => h x (by simp [hx]))]

/-! ## Relationship records (`tools/documentation/generator.py`)

`DocumentationGenerator.analyze_code_relationships` builds, per file, the
dict `{'imports': [...], 'functions': {name: {'calls': [...], 'variables':
[...], 'line_number': n}}, 'variables': [...], 'dependencies': [...]}`, or
on any exception the dict `{'error': msg, 'imports': [], 'functions': {},
'variables': [], 'dependencies': []}` — it **returns** the error dict, it
never raises.  Python dicts preserve insertion order, so dicts are
association lists here.  The `'variables'` key is named `vars` because
`variables` is not a usable identifier in Lean 4. -/

structure FuncData where
  calls : List String
  vars : List String
  line_number : Nat
deriving DecidableEq

structure RelRecordE where
  imports : List String
  functions : List (String × FuncData)
  vars : List String
  dependencies : List String
  error : Option String
deriving DecidableEq

/-! ## Documentation cache (`tools/documentation/cache.py`)

`DocumentationCache.__init__` fixes `cache_expiry = 24*60*60` seconds and
`chunk_size = 1000` approximate tokens; both are modelled as a configuration
record whose default mirrors the constructor.  The cache directory and the
SHA-256-of-absolute-path key derivation (`_get_cache_path`) only select
*which* entry is read or written; since every claim concerns a single
repository, the state carries just that repository's entry.  The on-disk
entry is `none` when the file does not exist, `corrupt` when it exists but
`json.load` (or a field access) raises, and `stored d` when it decodes. -/

structure CacheConfig where
  cache_expiry : Int
  chunk_size : Nat
deriving DecidableEq

def defaultCacheConfig : CacheConfig := ⟨24 * 60 * 60, 1000⟩

/-- JSON-serializable metadata values (the source stores free-form small
values such as counts and booleans). -/
inductive JVal where
  | jstr (s : String)
  | jnum (n : Int)
  | jbool (b : Bool)
deriving DecidableEq

structure CacheEntryData where
  timestamp : Int
  checksums : List (String × String)
  documentation : Str
  chunks : List Str
  metadata : List (String × JVal)
deriving DecidableEq

inductive DiskEntry where
  | corrupt (msg : String)
  | stored (d : CacheEntryData)
deriving DecidableEq

structure CacheState where
  entry : Option DiskEntry
deriving DecidableEq

/-- What `get_cached_doc` hands back on a hit: the `documentation`,
`chunks` and `metadata` fields of the entry (cache.py lines 54-58). -/
structure CachedBundle where
  documentation : Str
  chunks : List Str
  metadata : List (String × JVal)
deriving DecidableEq

/-- The extension allow-list of `_calculate_file_checksums`
(cache.py line 25): `file.endswith(('.py','.js','.ts','.jsx','.tsx','.md'))`. -/
def eligibleExt (path : String) : Bool :=
  [".py", ".js", ".ts", ".jsx", ".tsx", ".md"].any (fun ext => strEndsWith path ext)

/-- `DocumentationCache._calculate_file_checksums` (cache.py lines 20-33):
walk every file under the root (no directory is pruned), keep those whose
name ends with an allowed extension, and map the relative path to the
content digest.  Unreadable files are skipped by the per-file
`try/except`; the model passes the readable files' contents directly. -/
def calculate_file_checksums (hash : String → String)
    (files : List (String × String)) : List (String × String) :=
  files.filterMap (fun f => if eligibleExt f.1 then some (f.1, hash f.2) else none)

/-- Python `dict` equality (`current_checksums != cache_data['checksums']`):
same key set and same value at every key, regardless of insertion order. -/
def dictBeq (a b : List (String × String)) : Bool :=
  a.all (fun p => b.lookup p.1 == some p.2) && b.all (fun p => a.lookup p.1 == some p.2)

/-- `DocumentationCache.get_cached_doc` (cache.py lines 35-60): `None` unless
the entry file exists, decodes, `now - timestamp ≤ expiry` fails to exceed
the window, and the freshly recomputed checksum dict equals the stored one.
The source's blanket `except Exception: return None` is the `corrupt`
branch. -/
def get_cached_doc (cfg : CacheConfig) (hash : String → String) (st : CacheState)
    (files : List (String × String)) (now : Int) : Option CachedBundle :=
  match st.entry with
  | none => none
  | some (.corrupt _) => none
  | some (.stored d) =>
    if now - d.timestamp > cfg.cache_expiry then none
    else
      let current_checksums := calculate_file_checksums hash files
      if dictBeq current_checksums d.checksums then
        some ⟨d.documentation, d.chunks, d.metadata⟩
      else none

/-- The chunking loop of `cache_doc` (cache.py lines 70-85) at the level of
line groups: state is (remaining lines, current_chunk, current_size,
finished chunks).  The source appends `'\n'.join(current_chunk)` at each
flush; the model keeps the line groups and joins them afterwards
(`chunksOf`), which is the same computation. -/
def chunkGroups (budget : Nat) :
    List Str → List Str → Nat → List (List Str) → List (List Str)
  | [], current, _, acc => if current.isEmpty then acc else acc ++ [current]
  | line :: rest, current, size, acc =>
    let line_size := wordCount line
    if budget < size + line_size then
      chunkGroups budget rest [line] line_size (acc ++ [current])
    else
      chunkGroups budget rest (current ++ [line]) (size + line_size) acc

/-- Split a documentation body into chunk strings exactly as
`cache_doc` does: split on newlines, group greedily by approximate token
count, rejoin each group with newlines. -/
def chunksOf (budget : Nat) (documentation : Str) : List Str :=
  (chunkGroups budget (splitOnChar '\n' documentation) [] 0 []).map (joinStrs '\n')

/-- The dynamically-typed `documentation` argument reaching `cache_doc`:
the cache's own tests pass a `str`; `DocumentationHandler._generate_documentation`
passes the dict `{'tree','contents','relationships'}`. -/
inductive PyDoc where
  | str (s : Str)
  | bundle (tree : String) (contents : String)
      (relationships : List (String × RelRecordE))

/-- `DocumentationCache.cache_doc` (cache.py lines 62-100).  Checksums are
computed, then the documentation is chunked — `documentation.split('\n')`
raises `AttributeError` when a dict is passed, and that line is *outside*
the `try` that guards only the file write, so the exception propagates to
the caller (`Except.error`).  A failing write (the `try/except pass`,
modelled by `writeOk = false`) leaves the on-disk state unchanged and
returns normally. -/
def cache_doc (cfg : CacheConfig) (hash : String → String)
    (files : List (String × String)) (now : Int) (documentation : PyDoc)
    (metadata : List (String × JVal)) (writeOk : Bool) (st : CacheState) :
    Except String CacheState :=
  let checksums := calculate_file_checksums hash files
  match documentation with
  | .bundle _ _ _ => .error "AttributeError: dict object has no attribute split"
  | .str s =>
    let chunks := chunksOf cfg.chunk_size s
    let cache_data : CacheEntryData := ⟨now, checksums, s, chunks, metadata⟩
    if writeOk then .ok ⟨some (.stored cache_data)⟩ else .ok st

/-- `DocumentationCache.get_cached_chunk` (cache.py lines 111-120): re-run
the full read-path validity check, then bounds-check `0 <= chunk_index <
len(chunks)`, returning `None` out of range.  (`'chunks' not in cache_data`
is impossible for a bundle returned by `get_cached_doc`.) -/
def get_cached_chunk (cfg : CacheConfig) (hash : String → String) (st : CacheState)
    (files : List (String × String)) (now : Int) (chunk_index : Int) : Option Str :=
  match get_cached_doc cfg hash st files now with
  | none => none
  | some cache_data =>
    let chunks := cache_data.chunks
    if h : 0 ≤ chunk_index ∧ chunk_index.toNat < chunks.length then
      some (chunks.get ⟨chunk_index.toNat, h.2⟩)
    else none

/-! ## Generator: extraction and tree rendering -/

/-- `DocumentationGenerator.analyze_code_relationships` (generator.py lines
45-117).  `ast.parse` plus the `CodeAnalyzer` visitor are the source-language
analyzer the spec treats as an external collaborator (spec §1); they are
abstracted as `parse`, which either yields the extracted record of a
parseable file or the exception message of an unparseable one.  Faithful to
the source's control flow: a failure produces the `'error'` dict (empty
imports / functions / variables) — the function never raises. -/
def analyze_code_relationships (parse : String → Except String RelRecordE)
    (path content : String) : RelRecordE :=
  match parse content with
  | .ok r => r
  | .error e =>
    { imports := []
      functions := []
      vars := []
      dependencies := []
      error := some ("Error analyzing " ++ path ++ ": " ++ e) }

/-- `DocumentationGenerator.__init__`: `exclude_dirs`. -/
def exclude_dirs : List String := [".git", "__pycache__", ".pytest_cache", ".venv", "venv"]

/-- `DocumentationGenerator.__init__`: `exclude_files` (extension suffixes). -/
def exclude_files : List String := [".pyc", ".pyo", ".pyd", ".so", ".dll"]

/-- A directory tree as `Path.iterdir` exposes it: each entry is a file or a
directory with children, in directory-listing order. -/
inductive FsTree where
  | file (name : String)
  | dir (name : String) (children : List FsTree)

def entryName : FsTree → String
  | .file n => n
  | .dir n _ => n

def entryIsFile : FsTree → Bool
  | .file _ => true
  | .dir _ _ => false

/-- The skip test of `generate_tree_structure` (generator.py line 20):
`entry.name in self.exclude_dirs or any(entry.name.endswith(ext) for ext in
self.exclude_files)`. -/
def excludedName (name : String) : Bool :=
  exclude_dirs.contains name || exclude_files.any (fun ext => strEndsWith name ext)

/-- Strict comparison corresponding to the sort key
`lambda x: (x.is_file(), x.name)` (generator.py line 17). -/
def entLt (a b : FsTree) : Bool :=
  (!entryIsFile a && entryIsFile b) ||
    (entryIsFile a == entryIsFile b && decide (entryName a < entryName b))

/-- Stable insertion used to model Python's stable `sorted`. -/
def insertEnt (x : FsTree) : List FsTree → List FsTree
  | [] => [x]
  | y :: ys => if entLt y x then y :: insertEnt x ys else x :: y :: ys

/-- `sorted(directory.iterdir(), key=lambda x: (x.is_file(), x.name))`. -/
def sortEnts (l : List FsTree) : List FsTree := l.foldr insertEnt []

mutual
/-- Pre-sort every directory level by the source's key.  The source sorts
each level on entry to `add_to_tree`; sorting all levels up front and then
rendering without sorting is the same per-level computation. -/
def sortTree : FsTree → FsTree
  | .file n => .file n
  | .dir n cs => .dir n (sortEnts (sortChildren cs))
def sortChildren : List FsTree → List FsTree
  | [] => []
  | t :: ts => sortTree t :: sortChildren ts
end

mutual
/-- One iteration of the `for i, entry in enumerate(entries)` body of
`add_to_tree` (generator.py lines 19-29), producing the rendered entries as
(prefix-plus-connector, name) pairs.  `i` and `n` carry the enumeration
index and `len(entries)` for the `is_last = i == len(entries) - 1` test —
note excluded entries still occupy an index. -/
def renderEntry (pfx : String) (is_last : Bool) : FsTree → List (String × String)
  | .file n => [(pfx ++ (if is_last then "└── " else "├── "), n)]
  | .dir n cs =>
    (pfx ++ (if is_last then "└── " else "├── "), n) ::
      renderList (pfx ++ (if is_last then "    " else "│   ")) cs.length 0 cs
def renderList (pfx : String) (n i : Nat) : List FsTree → List (String × String)
  | [] => []
  | e :: rest =>
    (if excludedName (entryName e) then [] else renderEntry pfx (i == n - 1) e) ++
      renderList pfx n (i + 1) rest
end

/-- The rendered entries of `generate_tree_structure(path)` for a root whose
listing is `root_children`. -/
def tree_pairs (root_children : List FsTree) : List (String × String) :=
  let s := sortEnts (sortChildren root_children)
  renderList "" s.length 0 s

/-- `DocumentationGenerator.generate_tree_structure` (generator.py lines
11-32): the joined tree text. -/
def generate_tree_structure (root_children : List FsTree) : String :=
  String.intercalate "\n" ((tree_pairs root_children).map (fun p => p.1 ++ p.2))

def separator48 : String := String.mk (List.replicate 48 '=')

/-- `DocumentationGenerator.extract_file_contents` (generator.py lines
34-43) for a readable file. -/
def extract_file_contents (path content : String) : String :=
  "File: " ++ path ++ "\n" ++ separator48 ++ "\n" ++ content ++ "\n" ++ separator48 ++ "\n"

/-! ## Context provider (`tools/documentation/context.py`) -/

/-- `ContextProvider._get_relationships` (context.py lines 98-117), below the
memoization lookup: walk (no pruning), analyze every `.py` file, return
`None` when the resulting dict is empty.  The `try/except: continue` around
the per-file call is dead code — `analyze_code_relationships` never raises —
so no file is ever skipped. -/
def get_relationships (parse : String → Except String RelRecordE)
    (files : List (String × String)) : Option (List (String × RelRecordE)) :=
  let relationships := files.filterMap (fun f =>
    if strEndsWith f.1 ".py" then
      some (f.1, analyze_code_relationships parse f.1 f.2)
    else none)
  if relationships.isEmpty then none else some relationships

/-- `_EditAnalyzer.modified_elements` (context.py lines 171-205): the names
the edit snippet introduces, gathered by the AST visitor.  Claims quantify
over this record, so the visitor itself needs no model; Python sets are
modelled as lists (only membership and iteration are used). -/
structure ModifiedElements where
  functions : List String
  vars : List String
  imports : List String
  classes : List String
deriving DecidableEq

inductive Risk where
  | low
  | medium
  | high
deriving DecidableEq

/-- The mutable triple of `_analyze_impact`:
`affected_files` (a set), `warnings` (a list), `risk_level`. -/
structure ImpactState where
  affected_files : List String
  warnings : List String
  risk_level : Risk
deriving DecidableEq

/-- `affected_files.add(x)`: set insertion. -/
def addAffected (l : List String) (x : String) : List String :=
  if x ∈ l then l else l ++ [x]

/-- Body of the inner loop `for other_func, func_data in
other_rels.get('functions', {}).items()` (context.py lines 220-224): if the
modified function name is in `calls`, mark affected, warn, set
`risk_level = 'medium'`. -/
def call_match_step (other_file func_name : String) (s : ImpactState)
    (func : String × FuncData) : ImpactState :=
  if func.2.calls.contains func_name then
    { affected_files := addAffected s.affected_files other_file
      warnings := s.warnings ++
        ["Function \x27" ++ func_name ++ "\x27 is called in " ++ other_file]
      risk_level := Risk.medium }
  else s

/-- The call-evidence loop of `_analyze_impact` (context.py lines 219-224):
for every modified function name, scan the other file's functions. -/
def check_calls (other_file : String) (other_rels : RelRecordE)
    (modified_functions : List String) (st : ImpactState) : ImpactState :=
  modified_functions.foldl (fun s func_name =>
    other_rels.functions.foldl (call_match_step other_file func_name) s) st

/-- Body of `for var_name in modified_elements['variables']` (context.py
lines 227-231): a modified variable appearing in the other file's
module-level variables sets `risk_level = 'medium'`. -/
def var_match_step (other_file : String) (other_rels : RelRecordE)
    (s : ImpactState) (var_name : String) : ImpactState :=
  if other_rels.vars.contains var_name then
    { affected_files := addAffected s.affected_files other_file
      warnings := s.warnings ++
        ["Variable \x27" ++ var_name ++ "\x27 is used in " ++ other_file]
      risk_level := Risk.medium }
  else s

/-- The variable-evidence loop (context.py lines 227-231). -/
def check_variables (other_file : String) (other_rels : RelRecordE)
    (modified_variables : List String) (st : ImpactState) : ImpactState :=
  modified_variables.foldl (var_match_step other_file other_rels) st

/-- Body of `for imp in other_rels.get('imports', [])` (context.py lines
235-239): the edited file's module-qualified name occurring as a substring
of a recorded import sets `risk_level = 'high'`. -/
def import_match_step (other_file file_module : String) (s : ImpactState)
    (imp : String) : ImpactState :=
  if strIn file_module imp then
    { affected_files := addAffected s.affected_files other_file
      warnings := s.warnings ++ ["Module is imported in " ++ other_file]
      risk_level := Risk.high }
  else s

/-- The import-evidence loop (context.py lines 233-239). -/
def check_imports (other_file : String) (other_rels : RelRecordE)
    (file_module : String) (st : ImpactState) : ImpactState :=
  other_rels.imports.foldl (import_match_step other_file file_module) st

/-- One iteration of the `for other_file, other_rels in relationships.items()`
loop of `_analyze_impact` (context.py lines 214-239): skip the edited file,
otherwise run the three checks in source order (calls, variables, imports). -/
def impact_step (file_path : String) (modified_elements : ModifiedElements)
    (st : ImpactState) (entry : String × RelRecordE) : ImpactState :=
  if entry.1 = file_path then st
  else
    let st1 := check_calls entry.1 entry.2 modified_elements.functions st
    let st2 := check_variables entry.1 entry.2 modified_elements.vars st1
    check_imports entry.1 entry.2 (pyModuleName file_path) st2

/-- `ContextProvider._analyze_impact` (context.py lines 207-245): fold the
three checks over every file of the relationship graph, skipping the edited
file itself; `risk_level` starts at `low` and is *assigned* (not maxed) by
each match. -/
def analyze_impact (file_path : String) (relationships : List (String × RelRecordE))
    (modified_elements : ModifiedElements) : ImpactState :=
  relationships.foldl (impact_step file_path modified_elements) ⟨[], [], Risk.low⟩

/-! ## Handler (`tools/documentation/handler.py`)

`DocumentationHandler._get_repo_path` walks the filesystem upward looking
for a `.git` marker; that I/O is abstracted as an oracle
`git_root : String → Option String` (the repository root found for a path,
or `None`).  The handler's mutable `loaded_chunks` dict is explicit state. -/

structure HandlerState where
  loaded_chunks : List (String × List Str)
deriving DecidableEq

/-- `self.loaded_chunks[repo_path] = []` followed by
`while len(...) <= chunk_index: append('')` — pad with empty strings up to
the index. -/
def padChunks (l : List Str) (n : Nat) : List Str :=
  l ++ List.replicate (n - l.length) []

/-- Store `v` under `k` in a dict modelled as an association list. -/
def dictSet (m : List (String × List Str)) (k : String) (v : List Str) :
    List (String × List Str) :=
  if (m.lookup k).isSome then m.map (fun p => if p.1 = k then (k, v) else p)
  else m ++ [(k, v)]

/-- The cache-consult half of `get_documentation_chunk` (handler.py lines
66-76): ask `get_cached_chunk`; `if chunk:` is Python truthiness, so both
`None` *and the empty string* fall through to `return None`; a truthy chunk
is memoized into `loaded_chunks` (padding with `''`) and returned. -/
def load_chunk_from_cache (cfg : CacheConfig) (hash : String → String)
    (cst : CacheState) (files : List (String × String)) (now : Int)
    (h : HandlerState) (repo_path : String) (chunk_index : Int) :
    Option Str × HandlerState :=
  match get_cached_chunk cfg hash cst files now chunk_index with
  | some chunk =>
    if chunk.isEmpty then (none, h)
    else
      let lc := (h.loaded_chunks.lookup repo_path).getD []
      let padded := padChunks lc (chunk_index.toNat + 1)
      (some chunk, ⟨dictSet h.loaded_chunks repo_path (padded.set chunk_index.toNat chunk)⟩)
  | none => (none, h)

/-- `DocumentationHandler.get_documentation_chunk` (handler.py lines 57-76):
guard that `repo_path` resolves to a known repository, serve from
`loaded_chunks` when the index is present there, otherwise consult the
cache. -/
def get_documentation_chunk (git_root : String → Option String)
    (cfg : CacheConfig) (hash : String → String) (cst : CacheState)
    (files : List (String × String)) (now : Int) (h : HandlerState)
    (repo_path : String) (chunk_index : Int) : Option Str × HandlerState :=
  if (git_root repo_path).isNone then (none, h)
  else
    match h.loaded_chunks.lookup repo_path with
    | some lc =>
      if hi : 0 ≤ chunk_index ∧ chunk_index.toNat < lc.length then
        (some (lc.get ⟨chunk_index.toNat, hi.2⟩), h)
      else load_chunk_from_cache cfg hash cst files now h repo_path chunk_index
    | none => load_chunk_from_cache cfg hash cst files now h repo_path chunk_index

/-- `DocumentationHandler._generate_documentation` (handler.py lines
124-162): render the tree, concatenate eligible files' contents, analyze
every `.py` file, assemble the `documentation` **dict**, hand it to
`cache_doc`, and return it — all under a blanket `try/except Exception:
return None`.  `cache_doc` is where control actually leaves: it calls
`.split('\n')` on the dict, which raises, so the `except` swallows the
built result. -/
def generate_documentation (parse : String → Except String RelRecordE)
    (cfg : CacheConfig) (hash : String → String) (root_children : List FsTree)
    (files : List (String × String)) (now : Int) (writeOk : Bool)
    (st : CacheState) : Option PyDoc × CacheState :=
  let tree := generate_tree_structure root_children
  let contents := files.filterMap (fun f =>
    if eligibleExt f.1 then some (extract_file_contents f.1 f.2) else none)
  let relationships := files.filterMap (fun f =>
    if strEndsWith f.1 ".py" then
      some (f.1, analyze_code_relationships parse f.1 f.2)
    else none)
  let documentation := PyDoc.bundle tree (String.intercalate "\n" contents) relationships
  let metadata := [("files_analyzed", JVal.jnum contents.length),
    ("relationships_found", JVal.jnum relationships.length)]
  match cache_doc cfg hash files now documentation metadata writeOk st with
  | .ok st2 => (some documentation, st2)
  | .error _ => (none, st)

/-! ## Impact-analysis lemmas

`file_verdict` is the per-file summary the proofs reveal in
`_analyze_impact`: what one iteration of the outer loop does to
`risk_level`.  Because each match *assigns* the risk level, the level after
the whole loop is determined by the **last** file (in graph iteration
order) bearing any evidence — not by the maximum across files. -/

def has_call_evidence (other_rels : RelRecordE) (modified_functions : List String) : Bool :=
  modified_functions.any (fun fn => other_rels.functions.any (fun func => func.2.calls.contains fn))

def has_variable_evidence (other_rels : RelRecordE) (modified_variables : List String) : Bool :=
  modified_variables.any (fun v => other_rels.vars.contains v)

def has_import_evidence (other_rels : RelRecordE) (file_module : String) : Bool :=
  other_rels.imports.any (fun imp => strIn file_module imp)

/-- What one outer-loop iteration assigns to `risk_level`, or `none` when it
leaves it alone (edited file itself, or no evidence): `high` when import
evidence exists (the import loop runs last), else `medium` on call or
variable evidence. -/
def file_verdict (file_path : String) (modified_elements : ModifiedElements)
    (entry : String × RelRecordE) : Option Risk :=
  if entry.1 = file_path then none
  else if has_import_evidence entry.2 (pyModuleName file_path) then some Risk.high
  else if has_call_evidence entry.2 modified_elements.functions ||
      has_variable_evidence entry.2 modified_elements.vars then some Risk.medium
  else none

/-- Generic shape of the three evidence loops' effect on `risk_level`: each
iteration either leaves the state alone or assigns the fixed level `r`, so
the fold assigns `r` exactly when some element matches. -/
theorem foldl_risk_assign {α : Type} (step : ImpactState → α → ImpactState)
    (p : α → Bool) (r : Risk)
    (hstep : ∀ s a, (step s a).risk_level = if p a then r else s.risk_level)
    (l : List α) (s : ImpactState) :
    (l.foldl step s).risk_level = if l.any p then r else s.risk_level := by
  induction l generalizing s with
  | nil => simp
  | cons a t ih =>
    rw [List.foldl_cons, ih, List.any_cons, hstep]
    by_cases h1 : p a <;> by_cases h2 : t.any p <;> simp [h1, h2]

/-- Generic shape of the evidence loops' effect on `affected_files`: only
`other_file` is ever added. -/
theorem foldl_affected_bound {α : Type} (step : ImpactState → α → ImpactState)
    (f : String)
    (hstep : ∀ s a x, x ∈ (step s a).affected_files → x = f ∨ x ∈ s.affected_files)
    (l : List α) (s : ImpactState) (x : String) :
    x ∈ (l.foldl step s).affected_files → x = f ∨ x ∈ s.affected_files := by
  induction l generalizing s with
  | nil => exact fun h => Or.inr h
  | cons a t ih =>
    intro h
    rcases ih (step s a) h with h1 | h2
    · exact Or.inl h1
    · exact hstep s a x h2

/-- Generic shape of a no-evidence pass: when no element matches, the fold
returns the state unchanged. -/
theorem foldl_state_noop {α : Type} (step : ImpactState → α → ImpactState)
    (p : α → Bool) (hstep : ∀ s a, p a = false → step s a = s)
    (l : List α) (hl : l.any p = false) (s : ImpactState) :
    l.foldl step s = s := by
  induction l generalizing s with
  | nil => rfl
  | cons a t ih =>
    rw [List.any_cons, Bool.or_eq_false_iff] at hl
    rw [List.foldl_cons, hstep s a hl.1, ih hl.2]

theorem addAffected_mem (l : List String) (y x : String) :
    x ∈ addAffected l y → x = y ∨ x ∈ l := by
  rw [addAffected]
  split
  · exact fun h => Or.inr h
  · intro h
    rcases List.mem_append.mp h with h1 | h2
    · exact Or.inr h1
    · exact Or.inl (List.mem_singleton.mp h2)

theorem call_match_step_risk (f fn : String) (s : ImpactState) (a : String × FuncData) :
    (call_match_step f fn s a).risk_level =
      if a.2.calls.contains fn then Risk.medium else s.risk_level := by
  rw [call_match_step]
  split <;> simp_all

theorem check_calls_risk (f : String) (o : RelRecordE) (mf : List String)
    (st : ImpactState) :
    (check_calls f o mf st).risk_level =
      if has_call_evidence o mf then Risk.medium else st.risk_level := by
  rw [check_calls, has_call_evidence]
  exact foldl_risk_assign _ _ Risk.medium
    (fun s fn => foldl_risk_assign _ _ Risk.medium (call_match_step_risk f fn) o.functions s)
    mf st

theorem var_match_step_risk (f : String) (o : RelRecordE) (s : ImpactState) (v : String) :
    (var_match_step f o s v).risk_level =
      if o.vars.contains v then Risk.medium else s.risk_level := by
  rw [var_match_step]
  split <;> simp_all

theorem check_variables_risk (f : String) (o : RelRecordE) (mv : List String)
    (st : ImpactState) :
    (check_variables f o mv st).risk_level =
      if has_variable_evidence o mv then Risk.medium else st.risk_level := by
  rw [check_variables, has_variable_evidence]
  exact foldl_risk_assign _ _ Risk.medium (var_match_step_risk f o) mv st

theorem import_match_step_risk (f fm : String) (s : ImpactState) (imp : String) :
    (import_match_step f fm s imp).risk_level =
      if strIn fm imp then Risk.high else s.risk_level := by
  rw [import_match_step]
  split <;> simp_all

theorem check_imports_risk (f fm : String) (o : RelRecordE) (st : ImpactState) :
    (check_imports f o fm st).risk_level =
      if has_import_evidence o fm then Risk.high else st.risk_level := by
  rw [check_imports, has_import_evidence]
  exact foldl_risk_assign _ _ Risk.high (import_match_step_risk f fm) o.imports st

theorem impact_step_risk (fp : String) (me : ModifiedElements) (st : ImpactState)
    (e : String × RelRecordE) :
    (impact_step fp me st e).risk_level =
      (file_verdict fp me e).getD st.risk_level := by
  rw [impact_step, file_verdict]
  by_cases he : e.1 = fp
  · simp [he]
  · simp only [he, if_false]
    rw [check_imports_risk, check_variables_risk, check_calls_risk]
    by_cases h1 : has_import_evidence e.2 (pyModuleName fp) <;>
      by_cases h2 : has_call_evidence e.2 me.functions <;>
        by_cases h3 : has_variable_evidence e.2 me.vars <;>
          simp [h1, h2, h3]

theorem foldl_impact_risk (fp : String) (me : ModifiedElements)
    (rels : List (String × RelRecordE)) (st : ImpactState) :
    (rels.foldl (impact_step fp me) st).risk_level =
      rels.foldl (fun r e => (file_verdict fp me e).getD r) st.risk_level := by
  induction rels generalizing st with
  | nil => rfl
  | cons e t ih => rw [List.foldl_cons, List.foldl_cons, ih, impact_step_risk]

theorem call_match_step_noop (f fn : String) (s : ImpactState) (a : String × FuncData)
    (h : a.2.calls.contains fn = false) : call_match_step f fn s a = s := by
  rw [call_match_step, h]
  simp

theorem check_calls_noop (f : String) (o : RelRecordE) (mf : List String)
    (h : has_call_evidence o mf = false) (st : ImpactState) :
    check_calls f o mf st = st := by
  rw [has_call_evidence] at h
  exact foldl_state_noop _ _
    (fun s fn hfn => foldl_state_noop _ _ (call_match_step_noop f fn) o.functions hfn s)
    mf h st

theorem var_match_step_noop (f : String) (o : RelRecordE) (s : ImpactState) (v : String)
    (h : o.vars.contains v = false) : var_match_step f o s v = s := by
  rw [var_match_step, h]
  simp

theorem check_variables_noop (f : String) (o : RelRecordE) (mv : List String)
    (h : has_variable_evidence o mv = false) (st : ImpactState) :
    check_variables f o mv st = st := by
  rw [has_variable_evidence] at h
  exact foldl_state_noop _ _ (var_match_step_noop f o) mv h st

theorem import_match_step_noop (f fm : String) (s : ImpactState) (imp : String)
    (h : strIn fm imp = false) : import_match_step f fm s imp = s := by
  rw [import_match_step, h]
  simp

theorem check_imports_noop (f fm : String) (o : RelRecordE)
    (h : has_import_evidence o fm = false) (st : ImpactState) :
    check_imports f o fm st = st := by
  rw [has_import_evidence] at h
  exact foldl_state_noop _ _ (import_match_step_noop f fm) o.imports h st

theorem call_match_step_affected (f fn : String) (s : ImpactState)
    (a : String × FuncData) (x : String) :
    x ∈ (call_match_step f fn s a).affected_files → x = f ∨ x ∈ s.affected_files := by
  rw [call_match_step]
  split
  · exact addAffected_mem _ _ _
  · exact fun h => Or.inr h

theorem check_calls_affected (f : String) (o : RelRecordE) (mf : List String)
    (st : ImpactState) (x : String) :
    x ∈ (check_calls f o mf st).affected_files → x = f ∨ x ∈ st.affected_files := by
  rw [check_calls]
  exact foldl_affected_bound _ f
    (fun s fn x => foldl_affected_bound _ f (call_match_step_affected f fn) o.functions s x)
    mf st x

theorem var_match_step_affected (f : String) (o : RelRecordE) (s : ImpactState)
    (v x : String) :
    x ∈ (var_match_step f o s v).affected_files → x = f ∨ x ∈ s.affected_files := by
  rw [var_match_step]
  split
  · exact addAffected_mem _ _ _
  · exact fun h => Or.inr h

theorem check_variables_affected (f : String) (o : RelRecordE) (mv : List String)
    (st : ImpactState) (x : String) :
    x ∈ (check_variables f o mv st).affected_files → x = f ∨ x ∈ st.affected_files := by
  rw [check_variables]
  exact foldl_affected_bound _ f (var_match_step_affected f o) mv st x

theorem import_match_step_affected (f fm : String) (s : ImpactState) (imp x : String) :
    x ∈ (import_match_step f fm s imp).affected_files → x = f ∨ x ∈ s.affected_files := by
  rw [import_match_step]
  split
  · exact addAffected_mem _ _ _
  · exact fun h => Or.inr h

theorem check_imports_affected (f fm : String) (o : RelRecordE)
    (st : ImpactState) (x : String) :
    x ∈ (check_imports f o fm st).affected_files → x = f ∨ x ∈ st.affected_files := by
  rw [check_imports]
  exact foldl_affected_bound _ f (import_match_step_affected f fm) o.imports st x

theorem impact_step_affected (fp : String) (me : ModifiedElements) (st : ImpactState)
    (e : String × RelRecordE) (x : String) :
    x ∈ (impact_step fp me st e).affected_files →
      (x = e.1 ∧ e.1 ≠ fp) ∨ x ∈ st.affected_files := by
  rw [impact_step]
  by_cases he : e.1 = fp
  · simp only [he, if_true]
    exact fun h => Or.inr h
  · simp only [he, if_false]
    intro h
    rcases check_imports_affected _ _ _ _ _ h with h1 | h2
    · exact Or.inl ⟨h1, he⟩
    rcases check_variables_affected _ _ _ _ _ h2 with h3 | h4
    · exact Or.inl ⟨h3, he⟩
    rcases check_calls_affected _ _ _ _ _ h4 with h5 | h6
    · exact Or.inl ⟨h5, he⟩
    · exact Or.inr h6

theorem file_verdict_none_elim (fp : String) (me : ModifiedElements)
    (e : String × RelRecordE) (h : file_verdict fp me e = none) (st : ImpactState) :
    impact_step fp me st e = st := by
  rw [file_verdict] at h
  by_cases he : e.1 = fp
  · rw [impact_step, if_pos he]
  · simp only [he, if_false] at h
    by_cases h1 : has_import_evidence e.2 (pyModuleName fp)
    · simp [h1] at h
    · simp only [h1, if_false] at h
      by_cases h2 : has_call_evidence e.2 me.functions ||
          has_variable_evidence e.2 me.vars
      · simp [h2] at h
      · rw [Bool.or_eq_true] at h2
        push_neg at h2
        have hc : has_call_evidence e.2 me.functions = false := by simpa using h2.1
        have hv : has_variable_evidence e.2 me.vars = false := by simpa using h2.2
        have hi : has_import_evidence e.2 (pyModuleName fp) = false := by simpa using h1
        rw [impact_step, if_neg he]
        show check_imports e.1 e.2 (pyModuleName fp)
          (check_variables e.1 e.2 me.vars (check_calls e.1 e.2 me.functions st)) = st
        rw [check_calls_noop _ _ _ hc, check_variables_noop _ _ _ hv,
          check_imports_noop _ _ _ hi]

theorem foldl_impact_noop (fp : String) (me : ModifiedElements)
    (rels : List (String × RelRecordE))
    (h : ∀ e ∈ rels, file_verdict fp me e = none) (st : ImpactState) :
    rels.foldl (impact_step fp me) st = st := by
  induction rels generalizing st with
  | nil => rfl
  | cons e t ih =>
    rw [List.foldl_cons, file_verdict_none_elim fp me e (h e (by simp)) st,
      ih (fun e2 he2 => h e2 (by simp [he2]))]

theorem foldl_impact_affected (fp : String) (me : ModifiedElements)
    (rels : List (String × RelRecordE)) (st : ImpactState) (x : String) :
    x ∈ (rels.foldl (impact_step fp me) st).affected_files →
      x ∈ st.affected_files ∨ ∃ e ∈ rels, x = e.1 ∧ e.1 ≠ fp := by
  induction rels generalizing st with
  | nil => exact fun h => Or.inl h
  | cons e t ih =>
    intro h
    rcases ih (impact_step fp me st e) h with h1 | h2
    · rcases impact_step_affected fp me st e x h1 with h3 | h4
      · exact Or.inr ⟨e, by simp, h3⟩
      · exact Or.inl h4
    · rcases h2 with ⟨e2, he2, hx⟩
      exact Or.inr ⟨e2, by simp [he2], hx⟩

/-! ## Claims C1 and C10 -/

/-- C1, counterexample: the claim says the reported `risk_level` is the
*maximum* severity over all evidence, so a scenario with an import-evidence
match must report `high` regardless of file visitation order.  In this
two-file graph the file with import evidence (`imp.py`, which imports the
edited module `e`) is visited first and sets `risk_level = 'high'`, then the
file with call evidence (`call.py`, whose function `f` calls the modified
function `g`) overwrites it with `'medium'`: the result is `medium ≠ high`. -/
theorem c1_counterexample :
    has_import_evidence ⟨["e"], [], [], [], none⟩ (pyModuleName "e.py") = true ∧
    (analyze_impact "e.py"
      [("imp.py", ⟨["e"], [], [], [], none⟩),
       ("call.py", ⟨[], [("f", ⟨["g"], [], 1⟩)], [], [], none⟩)]
      ⟨["g"], [], [], []⟩).risk_level = Risk.medium ∧
    Risk.medium ≠ Risk.high := by
  decide

/-- C1, amended: `risk_level` is not the maximum severity over all evidence;
because each match *assigns* the level, the reported level is the verdict of
the **last** file in graph iteration order bearing any evidence (`high` for
a file with import evidence — imports are checked last within a file —
else `medium` for call/variable evidence), defaulting to `low`.  A scenario
with zero evidence across all three checks reports `low` with an empty
`affected_files` set (the second conjunct). -/
theorem c1_risk_is_last_file_verdict (fp : String)
    (rels : List (String × RelRecordE)) (me : ModifiedElements) :
    (analyze_impact fp rels me).risk_level =
      rels.foldl (fun r e => (file_verdict fp me e).getD r) Risk.low ∧
    ((∀ e ∈ rels, file_verdict fp me e = none) →
      analyze_impact fp rels me = ⟨[], [], Risk.low⟩) := by
  constructor
  · rw [analyze_impact, foldl_impact_risk]
  · intro h
    rw [analyze_impact, foldl_impact_noop fp me rels h]

/-- C1, witness: a concrete zero-evidence scenario reports `low` with empty
`affected_files`. -/
theorem c1_witness :
    analyze_impact "b.py" [("a.py", ⟨[], [], [], [], none⟩)] ⟨["g"], [], [], []⟩ =
      ⟨[], [], Risk.low⟩ :=
  (c1_risk_is_last_file_verdict "b.py" [("a.py", ⟨[], [], [], [], none⟩)]
    ⟨["g"], [], [], []⟩).2 (by decide)

/-- C10: every path in `affected_files` differs from the edited file's path
(the outer loop skips `other_file == file_path`) and is a key of the
supplied relationship graph (paths are only ever added while iterating
`relationships.items()`). -/
theorem c10_affected_files_are_other_keys (fp : String)
    (rels : List (String × RelRecordE)) (me : ModifiedElements) (x : String) :
    x ∈ (analyze_impact fp rels me).affected_files →
      x ≠ fp ∧ x ∈ rels.map Prod.fst := by
  intro h
  rw [analyze_impact] at h
  rcases foldl_impact_affected fp me rels ⟨[], [], Risk.low⟩ x h with h1 | h2
  · exact absurd h1 (List.not_mem_nil x)
  · rcases h2 with ⟨e, he, hx, hne⟩
    subst hx
    exact ⟨hne, List.mem_map.mpr ⟨e, he, rfl⟩⟩

/-- C10, witness: in a concrete scenario with call evidence, `a.py` is
reported affected, differs from the edited path `b.py`, and is a graph key. -/
theorem c10_witness :
    "a.py" ≠ "b.py" ∧
    "a.py" ∈ ([("a.py", (⟨[], [("f", ⟨["g"], [], 1⟩)], [], [], none⟩ : RelRecordE))].map
      Prod.fst) :=
  c10_affected_files_are_other_keys "b.py"
    [("a.py", ⟨[], [("f", ⟨["g"], [], 1⟩)], [], [], none⟩)] ⟨["g"], [], [], []⟩
    "a.py" (by decide)

/-! ## Cache lemmas -/
theorem assoc_lookup_eq {β : Type} (l : List (String × β)) (k : String) (v : β)
    (hnd : (l.map Prod.fst).Nodup) (hmem : (k, v) ∈ l) : l.lookup k = some v := by
  induction l with
  | nil => cases hmem
  | cons a t ih =>
    rw [List.map_cons, List.nodup_cons] at hnd
    rcases List.mem_cons.mp hmem with h1 | h2
    · cases h1
      simp [List.lookup]
    · have hk : k ∈ t.map Prod.fst := List.mem_map.mpr ⟨(k, v), h2, rfl⟩
      have hne : (k == a.1) = false := by
        rw [beq_eq_false_iff_ne]
        exact fun he => hnd.1 (he ▸ hk)
      rcases a with ⟨a1, a2⟩
      simp only [List.lookup, hne]
      exact ih hnd.2 h2

theorem calc_mem (hash : String → String) (files : List (String × String))
    (f c : String) (hmem : (f, c) ∈ files) (helig : eligibleExt f = true) :
    (f, hash c) ∈ calculate_file_checksums hash files :=
  List.mem_filterMap.mpr ⟨(f, c), hmem, by simp [helig]⟩

theorem calc_keys (hash : String → String) (files : List (String × String)) :
    (calculate_file_checksums hash files).map Prod.fst =
      (files.filter (fun f => eligibleExt f.1)).map Prod.fst := by
  induction files with
  | nil => rfl
  | cons a t ih =>
    rw [calculate_file_checksums, List.filterMap_cons]
    by_cases h : eligibleExt a.1
    · simp only [h, if_pos]
      rw [List.map_cons, List.filter_cons_of_pos (by simp [h]), List.map_cons]
      rw [calculate_file_checksums] at ih
      rw [ih]
    · simp only [h, Bool.false_eq_true, if_neg, not_false_eq_true]
      rw [List.filter_cons_of_neg (by simp [h])]
      rw [calculate_file_checksums] at ih
      rw [ih]

theorem calc_keys_nodup (hash : String → String) (files : List (String × String))
    (hnd : (files.map Prod.fst).Nodup) :
    ((calculate_file_checksums hash files).map Prod.fst).Nodup := by
  rw [calc_keys]
  exact hnd.sublist ((List.filter_sublist files).map Prod.fst)

theorem calc_lookup_none (hash : String → String) (files : List (String × String))
    (f : String) (h : f ∉ files.map Prod.fst) :
    (calculate_file_checksums hash files).lookup f = none := by
  induction files with
  | nil => rfl
  | cons a t ih =>
    rw [List.map_cons, List.mem_cons] at h
    rcases not_or.mp h with ⟨h1, h2⟩
    rw [calculate_file_checksums, List.filterMap_cons]
    have hne : (f == a.1) = false := by
      rw [beq_eq_false_iff_ne]
      exact h1
    by_cases he : eligibleExt a.1
    · simp only [he, if_pos]
      simp only [List.lookup, hne]
      rw [calculate_file_checksums] at ih
      exact ih h2
    · simp only [he, Bool.false_eq_true, if_neg, not_false_eq_true]
      rw [calculate_file_checksums] at ih
      exact ih h2

theorem dictBeq_self (a : List (String × String)) (hnd : (a.map Prod.fst).Nodup) :
    dictBeq a a = true := by
  rw [dictBeq]
  have hall : a.all (fun p => a.lookup p.1 == some p.2) = true := by
    rw [List.all_eq_true]
    intro p hp
    have : a.lookup p.1 = some p.2 := assoc_lookup_eq a p.1 p.2 hnd (by simpa using hp)
    simp [this]
  rw [hall]
  simp

theorem dictBeq_false_left (a b : List (String × String)) (p : String × String)
    (hp : p ∈ a) (h : b.lookup p.1 ≠ some p.2) : dictBeq a b = false := by
  rw [dictBeq]
  have hfalse : a.all (fun q => b.lookup q.1 == some q.2) = false := by
    rcases ha : a.all (fun q => b.lookup q.1 == some q.2) with _ | _
    · rfl
    · rw [List.all_eq_true] at ha
      exact absurd (by simpa using ha p hp) h
  rw [hfalse, Bool.false_and]

theorem dictBeq_false_right (a b : List (String × String)) (p : String × String)
    (hp : p ∈ b) (h : a.lookup p.1 ≠ some p.2) : dictBeq a b = false := by
  rw [dictBeq]
  have hfalse : b.all (fun q => a.lookup q.1 == some q.2) = false := by
    rcases hb : b.all (fun q => a.lookup q.1 == some q.2) with _ | _
    · rfl
    · rw [List.all_eq_true] at hb
      exact absurd (by simpa using hb p hp) h
  rw [hfalse, Bool.and_false]

theorem get_cached_doc_eq_of_stored (cfg : CacheConfig) (hash : String → String)
    (st : CacheState) (files : List (String × String)) (now : Int)
    (d : CacheEntryData) (h : st.entry = some (.stored d)) :
    get_cached_doc cfg hash st files now =
      if now - d.timestamp > cfg.cache_expiry then none
      else if dictBeq (calculate_file_checksums hash files) d.checksums then
        some ⟨d.documentation, d.chunks, d.metadata⟩
      else none := by
  obtain ⟨e⟩ := st
  cases h
  rfl

theorem get_cached_doc_isSome_iff (cfg : CacheConfig) (hash : String → String)
    (st : CacheState) (files : List (String × String)) (now : Int) :
    (get_cached_doc cfg hash st files now).isSome = true ↔
      ∃ d, st.entry = some (.stored d) ∧ ¬now - d.timestamp > cfg.cache_expiry ∧
        dictBeq (calculate_file_checksums hash files) d.checksums = true := by
  obtain ⟨e⟩ := st
  rcases e with _ | de
  · simp [get_cached_doc]
  · rcases de with msg | d
    · simp [get_cached_doc]
    · rw [get_cached_doc_eq_of_stored cfg hash ⟨some (.stored d)⟩ files now d rfl]
      by_cases h1 : now - d.timestamp > cfg.cache_expiry
      · rw [if_pos h1]
        simp only [Option.isSome_none, Bool.false_eq_true, false_iff]
        rintro ⟨d2, hd2, hexp, _⟩
        simp only [Option.some.injEq, DiskEntry.stored.injEq] at hd2
        subst hd2
        exact hexp h1
      · rw [if_neg h1]
        by_cases h2 : dictBeq (calculate_file_checksums hash files) d.checksums
        · rw [if_pos h2]
          simp only [Option.isSome_some, true_iff]
          exact ⟨d, rfl, h1, h2⟩
        · rw [if_neg h2]
          simp only [Option.isSome_none, Bool.false_eq_true, false_iff]
          rintro ⟨d2, hd2, _, hck⟩
          simp only [Option.some.injEq, DiskEntry.stored.injEq] at hd2
          subst hd2
          exact h2 hck

/-! ## Claims C2 and C3 -/

/-- Overwrite the content of file `f` (mutating one file on disk). -/
def updateFile (files : List (String × String)) (f c : String) :
    List (String × String) :=
  files.map (fun p => if p.1 = f then (p.1, c) else p)

/-- C2: `get_cached_doc` returns a bundle iff the entry file exists and
decodes (`.stored`), the age does not exceed the expiry window, and the
recomputed checksum dict equals the stored one (first conjunct, an iff);
a decode/IO failure while reading yields `None`, never an exception
(second conjunct); and a single changed, added, or removed eligible file
turns the next read into a miss even though every other file is unchanged
(third through fifth conjuncts; for a changed file the digests must differ,
which is the collision-freeness the source gets from SHA-256). -/
theorem c2_read_iff_and_checksum_sensitivity (cfg : CacheConfig)
    (hash : String → String) (st : CacheState) (files : List (String × String))
    (now : Int) :
    ((get_cached_doc cfg hash st files now).isSome = true ↔
      ∃ d, st.entry = some (.stored d) ∧ ¬now - d.timestamp > cfg.cache_expiry ∧
        dictBeq (calculate_file_checksums hash files) d.checksums = true) ∧
    (∀ msg, st.entry = some (.corrupt msg) →
      get_cached_doc cfg hash st files now = none) ∧
    (∀ d f c c2, st.entry = some (.stored d) →
      d.checksums = calculate_file_checksums hash files →
      (files.map Prod.fst).Nodup → (f, c) ∈ files → eligibleExt f = true →
      hash c2 ≠ hash c →
      get_cached_doc cfg hash st (updateFile files f c2) now = none) ∧
    (∀ d f c2, st.entry = some (.stored d) →
      d.checksums = calculate_file_checksums hash files →
      eligibleExt f = true → f ∉ files.map Prod.fst →
      get_cached_doc cfg hash st (files ++ [(f, c2)]) now = none) ∧
    (∀ d f c, st.entry = some (.stored d) →
      d.checksums = calculate_file_checksums hash files →
      (files.map Prod.fst).Nodup → (f, c) ∈ files → eligibleExt f = true →
      get_cached_doc cfg hash st (files.filter (fun p => p.1 != f)) now = none) := by
  refine ⟨get_cached_doc_isSome_iff cfg hash st files now, ?_, ?_, ?_, ?_⟩
  · intro msg hmsg
    obtain ⟨e⟩ := st
    cases hmsg
    rfl
  · intro d f c c2 hentry hck hnd hmem helig hhash
    have hmem2 : (f, hash c2) ∈ calculate_file_checksums hash (updateFile files f c2) := by
      apply calc_mem hash _ f c2 _ helig
      exact List.mem_map.mpr ⟨(f, c), hmem, by simp⟩
    have hlk : d.checksums.lookup f = some (hash c) := by
      rw [hck]
      exact assoc_lookup_eq _ f (hash c) (calc_keys_nodup hash files hnd)
        (calc_mem hash files f c hmem helig)
    have hbeq : dictBeq (calculate_file_checksums hash (updateFile files f c2))
        d.checksums = false := by
      apply dictBeq_false_left _ _ (f, hash c2) hmem2
      rw [hlk]
      intro hcontr
      exact hhash (Option.some.injEq _ _ ▸ hcontr).symm
    rw [get_cached_doc_eq_of_stored cfg hash st _ now d hentry]
    split
    · rfl
    · rw [hbeq]
      simp
  · intro d f c2 hentry hck helig hnotin
    have hmem2 : (f, hash c2) ∈ calculate_file_checksums hash (files ++ [(f, c2)]) :=
      calc_mem hash _ f c2 (by simp) helig
    have hlk : d.checksums.lookup f = none := by
      rw [hck]
      exact calc_lookup_none hash files f hnotin
    have hbeq : dictBeq (calculate_file_checksums hash (files ++ [(f, c2)]))
        d.checksums = false := by
      apply dictBeq_false_left _ _ (f, hash c2) hmem2
      rw [hlk]
      exact fun hcontr => Option.noConfusion hcontr
    rw [get_cached_doc_eq_of_stored cfg hash st _ now d hentry]
    split
    · rfl
    · rw [hbeq]
      simp
  · intro d f c hentry hck hnd hmem helig
    have hmemstored : (f, hash c) ∈ d.checksums := by
      rw [hck]
      exact calc_mem hash files f c hmem helig
    have hnotin2 : f ∉ (files.filter (fun p => p.1 != f)).map Prod.fst := by
      intro hcontr
      rcases List.mem_map.mp hcontr with ⟨p, hp, hpf⟩
      have := List.of_mem_filter hp
      rw [hpf] at this
      simp at this
    have hlk : (calculate_file_checksums hash
        (files.filter (fun p => p.1 != f))).lookup f = none :=
      calc_lookup_none hash _ f hnotin2
    have hbeq : dictBeq (calculate_file_checksums hash
        (files.filter (fun p => p.1 != f))) d.checksums = false := by
      apply dictBeq_false_right _ _ (f, hash c) hmemstored
      rw [hlk]
      exact fun hcontr => Option.noConfusion hcontr
    rw [get_cached_doc_eq_of_stored cfg hash st _ now d hentry]
    split
    · rfl
    · rw [hbeq]
      simp

/-- C2, witness: a concrete hit, a corrupt-entry miss, and the three
single-file-mutation misses (changed / added / removed), each obtained from
`c2_read_iff_and_checksum_sensitivity` with its hypotheses discharged. -/
theorem c2_witness :
    (get_cached_doc defaultCacheConfig (fun s => s)
      ⟨some (.stored ⟨0, [("a.py", "x")], [], [], []⟩)⟩ [("a.py", "x")] 10).isSome = true ∧
    get_cached_doc defaultCacheConfig (fun s => s)
      ⟨some (.corrupt "boom")⟩ [("a.py", "x")] 10 = none ∧
    get_cached_doc defaultCacheConfig (fun s => s)
      ⟨some (.stored ⟨0, [("a.py", "x")], [], [], []⟩)⟩
      (updateFile [("a.py", "x")] "a.py" "y") 10 = none ∧
    get_cached_doc defaultCacheConfig (fun s => s)
      ⟨some (.stored ⟨0, [("a.py", "x")], [], [], []⟩)⟩
      ([("a.py", "x")] ++ [("b.py", "z")]) 10 = none ∧
    get_cached_doc defaultCacheConfig (fun s => s)
      ⟨some (.stored ⟨0, [("a.py", "x")], [], [], []⟩)⟩
      ([("a.py", "x")].filter (fun p => p.1 != "a.py")) 10 = none :=
  ⟨(c2_read_iff_and_checksum_sensitivity defaultCacheConfig (fun s => s)
      ⟨some (.stored ⟨0, [("a.py", "x")], [], [], []⟩)⟩ [("a.py", "x")] 10).1.mpr
      ⟨⟨0, [("a.py", "x")], [], [], []⟩, rfl, by decide, by decide⟩,
   (c2_read_iff_and_checksum_sensitivity defaultCacheConfig (fun s => s)
      ⟨some (.corrupt "boom")⟩ [("a.py", "x")] 10).2.1 "boom" rfl,
   (c2_read_iff_and_checksum_sensitivity defaultCacheConfig (fun s => s)
      ⟨some (.stored ⟨0, [("a.py", "x")], [], [], []⟩)⟩ [("a.py", "x")] 10).2.2.1
      ⟨0, [("a.py", "x")], [], [], []⟩ "a.py" "x" "y" rfl rfl (by decide) (by decide)
      (by decide) (by decide),
   (c2_read_iff_and_checksum_sensitivity defaultCacheConfig (fun s => s)
      ⟨some (.stored ⟨0, [("a.py", "x")], [], [], []⟩)⟩ [("a.py", "x")] 10).2.2.2.1
      ⟨0, [("a.py", "x")], [], [], []⟩ "b.py" "z" rfl rfl (by decide) (by decide),
   (c2_read_iff_and_checksum_sensitivity defaultCacheConfig (fun s => s)
      ⟨some (.stored ⟨0, [("a.py", "x")], [], [], []⟩)⟩ [("a.py", "x")] 10).2.2.2.2
      ⟨0, [("a.py", "x")], [], [], []⟩ "a.py" "x" rfl rfl (by decide) (by decide)
      (by decide)⟩

/-- C3, counterexample: the claim says a read at exactly `T + expiry` is a
guaranteed miss, but the source tests `now - timestamp > expiry` (strict),
so at `now = T + expiry` (here `T = 0`, `expiry = 86400` — the 24h default)
an otherwise-valid entry is still a **hit**. -/
theorem c3_counterexample :
    (86400 : Int) = 0 + defaultCacheConfig.cache_expiry ∧
    get_cached_doc defaultCacheConfig (fun s => s)
      ⟨some (.stored ⟨0, [], [], [], []⟩)⟩ [] 86400 =
      some ⟨[], [], []⟩ := by
  constructor
  · decide
  · decide

/-- C3, amended: for an entry whose checksums match the repository's current
state, `get_cached_doc` is a hit at every query time with
`now - T ≤ expiry` — the valid window is the *closed* interval `[T, T+expiry]`
(and also any `now < T`) — and a guaranteed miss exactly when
`now - T > expiry`, i.e. strictly after `T + expiry`. -/
theorem c3_expiry_boundary (cfg : CacheConfig) (hash : String → String)
    (st : CacheState) (files : List (String × String)) (now : Int)
    (d : CacheEntryData) (hentry : st.entry = some (.stored d))
    (hck : dictBeq (calculate_file_checksums hash files) d.checksums = true) :
    (now - d.timestamp ≤ cfg.cache_expiry →
      get_cached_doc cfg hash st files now =
        some ⟨d.documentation, d.chunks, d.metadata⟩) ∧
    (now - d.timestamp > cfg.cache_expiry →
      get_cached_doc cfg hash st files now = none) := by
  rw [get_cached_doc_eq_of_stored cfg hash st files now d hentry]
  constructor
  · intro hle
    rw [if_neg (not_lt.mpr hle), hck]
    simp
  · intro hgt
    rw [if_pos hgt]

/-- C3, witness: with the 24h default, a hit at `now = 100` and a miss at
`now = 90000` for an entry written at `T = 0`. -/
theorem c3_witness :
    get_cached_doc defaultCacheConfig (fun s => s)
      ⟨some (.stored ⟨0, [], [], [], []⟩)⟩ [] 100 = some ⟨[], [], []⟩ ∧
    get_cached_doc defaultCacheConfig (fun s => s)
      ⟨some (.stored ⟨0, [], [], [], []⟩)⟩ [] 90000 = none :=
  ⟨(c3_expiry_boundary defaultCacheConfig (fun s => s)
      ⟨some (.stored ⟨0, [], [], [], []⟩)⟩ [] 100 ⟨0, [], [], [], []⟩ rfl
      (by decide)).1 (by decide),
   (c3_expiry_boundary defaultCacheConfig (fun s => s)
      ⟨some (.stored ⟨0, [], [], [], []⟩)⟩ [] 90000 ⟨0, [], [], [], []⟩ rfl
      (by decide)).2 (by decide)⟩

/-! ## Claim C4: cache round-trip and chunk partition -/

theorem chunkGroups_flatten (budget : Nat) (lines : List Str) :
    ∀ (current : List Str) (size : Nat) (acc : List (List Str)),
      (chunkGroups budget lines current size acc).flatten =
        acc.flatten ++ current ++ lines := by
  induction lines with
  | nil =>
    intro current size acc
    rw [chunkGroups]
    by_cases h : current.isEmpty
    · rw [if_pos h, List.isEmpty_iff.mp h]
      simp
    · rw [if_neg h]
      simp
  | cons line rest ih =>
    intro current size acc
    rw [chunkGroups]
    by_cases h : budget < size + wordCount line
    · rw [if_pos h, ih]
      simp
    · rw [if_neg h, ih]
      simp

theorem chunkGroups_nonempty (budget : Nat) (lines : List Str) :
    ∀ (current : List Str) (size : Nat) (acc : List (List Str)),
      current ≠ [] → (∀ g ∈ acc, g ≠ []) →
      ∀ g ∈ chunkGroups budget lines current size acc, g ≠ [] := by
  induction lines with
  | nil =>
    intro current size acc hcur hacc g hg
    rw [chunkGroups] at hg
    rw [if_neg (by simpa using hcur)] at hg
    rcases List.mem_append.mp hg with h1 | h2
    · exact hacc g h1
    · rw [List.mem_singleton.mp h2]
      exact hcur
  | cons line rest ih =>
    intro current size acc hcur hacc g hg
    rw [chunkGroups] at hg
    by_cases h : budget < size + wordCount line
    · rw [if_pos h] at hg
      refine ih [line] (wordCount line) (acc ++ [current]) (by simp) ?_ g hg
      intro g2 hg2
      rcases List.mem_append.mp hg2 with h1 | h2
      · exact hacc g2 h1
      · rw [List.mem_singleton.mp h2]
        exact hcur
    · rw [if_neg h] at hg
      exact ih (current ++ [line]) (size + wordCount line) acc (by simp) hacc g hg

theorem chunksOf_groups_nonempty (budget : Nat) (doc : Str)
    (hfirst : wordCount ((splitOnChar '\n' doc).headD []) ≤ budget) :
    ∀ g ∈ chunkGroups budget (splitOnChar '\n' doc) [] 0 [], g ≠ [] := by
  rcases hl : splitOnChar '\n' doc with _ | ⟨l0, rest⟩
  · exact absurd hl (splitOnChar_ne_nil _ _)
  · rw [hl] at hfirst
    rw [List.headD_cons] at hfirst
    rw [chunkGroups]
    rw [if_neg (by omega)]
    exact chunkGroups_nonempty budget rest ([] ++ [l0]) (0 + wordCount l0) []
      (by simp) (by simp)

/-- Rejoining the chunks with newlines reproduces the documentation,
*provided* the first line's word count fits in the budget (otherwise the
first flush emits an empty chunk and the rejoin gains a newline — see the
C4 counterexample). -/
theorem chunksOf_lossless (budget : Nat) (doc : Str)
    (hfirst : wordCount ((splitOnChar '\n' doc).headD []) ≤ budget) :
    joinStrs '\n' (chunksOf budget doc) = doc := by
  rw [chunksOf, joinStrs_map_join _ _ (chunksOf_groups_nonempty budget doc hfirst),
    chunkGroups_flatten]
  simp [joinStrs_splitOnChar]

/-- C4, amended: writing documentation `D` with metadata `M` and immediately
reading back (unchanged files, read inside the expiry window) returns `D`
and `M` unchanged; and the stored chunks rejoined with newlines reproduce
`D` exactly **when the first line of `D` fits in the chunk budget** — for a
first line over the budget the chunk list starts with a spurious empty
chunk and the rejoin prepends one newline (counterexample below). -/
theorem c4_roundtrip_and_chunk_partition (cfg : CacheConfig)
    (hash : String → String) (files : List (String × String)) (D : Str)
    (M : List (String × JVal)) (T now : Int) (st0 : CacheState)
    (hnd : (files.map Prod.fst).Nodup)
    (hexp : now - T ≤ cfg.cache_expiry)
    (hfirst : wordCount ((splitOnChar '\n' D).headD []) ≤ cfg.chunk_size) :
    cache_doc cfg hash files T (.str D) M true st0 =
      .ok ⟨some (.stored ⟨T, calculate_file_checksums hash files, D,
        chunksOf cfg.chunk_size D, M⟩)⟩ ∧
    get_cached_doc cfg hash ⟨some (.stored ⟨T, calculate_file_checksums hash files,
      D, chunksOf cfg.chunk_size D, M⟩)⟩ files now =
      some ⟨D, chunksOf cfg.chunk_size D, M⟩ ∧
    joinStrs '\n' (chunksOf cfg.chunk_size D) = D := by
  refine ⟨rfl, ?_, chunksOf_lossless cfg.chunk_size D hfirst⟩
  rw [get_cached_doc_eq_of_stored _ _ _ _ _ _ rfl]
  dsimp only
  rw [if_neg (not_lt.mpr hexp), dictBeq_self _ (calc_keys_nodup hash files hnd)]
  simp

/-- C4, witness: a concrete two-line documentation string round-trips and
its chunks rejoin to the original. -/
theorem c4_witness :
    cache_doc defaultCacheConfig (fun s => s) [("a.py", "x")] 0
        (.str "hi\nthere".toList) [("k", .jstr "v")] true ⟨none⟩ =
      .ok ⟨some (.stored ⟨0, calculate_file_checksums (fun s => s) [("a.py", "x")],
        "hi\nthere".toList, chunksOf defaultCacheConfig.chunk_size "hi\nthere".toList,
        [("k", .jstr "v")]⟩)⟩ ∧
    get_cached_doc defaultCacheConfig (fun s => s)
      ⟨some (.stored ⟨0, calculate_file_checksums (fun s => s) [("a.py", "x")],
        "hi\nthere".toList, chunksOf defaultCacheConfig.chunk_size "hi\nthere".toList,
        [("k", .jstr "v")]⟩)⟩ [("a.py", "x")] 10 =
      some ⟨"hi\nthere".toList, chunksOf defaultCacheConfig.chunk_size "hi\nthere".toList,
        [("k", .jstr "v")]⟩ ∧
    joinStrs '\n' (chunksOf defaultCacheConfig.chunk_size "hi\nthere".toList) =
      "hi\nthere".toList :=
  c4_roundtrip_and_chunk_partition defaultCacheConfig (fun s => s) [("a.py", "x")]
    "hi\nthere".toList [("k", .jstr "v")] 0 10 ⟨none⟩ (by decide) (by decide) (by decide)

/-- A line of `n + 1` single-character words separated by single spaces. -/
def bigLine : Nat → Str
  | 0 => ['w']
  | n + 1 => 'w' :: ' ' :: bigLine n

/-- A documentation body consisting of one line of 1001 words — one more
than `cache_doc`'s fixed chunk budget of 1000. -/
def bigDoc : Str := bigLine 1000

theorem bigLine_split (n : Nat) :
    splitOnPred isPySpace (bigLine n) = List.replicate (n + 1) ['w'] := by
  induction n with
  | zero => rfl
  | succ n ih =>
    rw [bigLine]
    rw [splitOnPred]
    rw [if_neg (by decide)]
    rw [splitOnPred]
    rw [if_pos (by decide), ih]
    rw [List.replicate_succ (n := n + 1)]

theorem bigLine_mem (n : Nat) : ∀ x ∈ bigLine n, x = 'w' ∨ x = ' ' := by
  induction n with
  | zero =>
    intro x hx
    rw [bigLine] at hx
    exact Or.inl (List.mem_singleton.mp hx)
  | succ n ih =>
    intro x hx
    rw [bigLine] at hx
    rcases List.mem_cons.mp hx with h1 | h2
    · exact Or.inl h1
    · rcases List.mem_cons.mp h2 with h3 | h4
      · exact Or.inr h3
      · exact ih x h4

theorem splitOnChar_of_not_mem (c : Char) (l : List Char) (h : ∀ x ∈ l, x ≠ c) :
    splitOnChar c l = [l] := by
  induction l with
  | nil => rfl
  | cons x xs ih =>
    rw [splitOnChar]
    rw [if_neg (h x (by simp)), ih (fun y hy => h y (by simp [hy]))]

theorem bigDoc_split_newline : splitOnChar '\n' bigDoc = [bigDoc] :=
  splitOnChar_of_not_mem '\n' bigDoc (fun x hx => by
    rcases bigLine_mem 1000 x hx with h | h <;> rw [h] <;> decide)

theorem wordCount_bigLine (n : Nat) : wordCount (bigLine n) = n + 1 := by
  rw [wordCount, bigLine_split]
  have hfilter : ∀ m : Nat, (List.replicate m (['w'] : Str)).filter
      (fun w => !w.isEmpty) = List.replicate m ['w'] := by
    intro m
    induction m with
    | zero => rfl
    | succ m ih => rw [List.replicate_succ, List.filter_cons_of_pos (by decide), ih]
  rw [hfilter, List.length_replicate]

/-- C4, counterexample: for a documentation body whose first (and only) line
holds 1001 words — one over the fixed budget of 1000 — the very first loop
iteration flushes the *empty* `current_chunk`, so the stored chunks are
`['', D]` and rejoining them with newlines yields `'\n' + D ≠ D`: the
chunks are not a lossless partition as claimed.  The write and the
immediate read still return `D` and the metadata unchanged. -/
theorem c4_counterexample :
    cache_doc defaultCacheConfig (fun s => s) [] 0 (.str bigDoc) [] true ⟨none⟩ =
      .ok ⟨some (.stored ⟨0, [], bigDoc, [[], bigDoc], []⟩)⟩ ∧
    get_cached_doc defaultCacheConfig (fun s => s)
      ⟨some (.stored ⟨0, [], bigDoc, [[], bigDoc], []⟩)⟩ [] 0 =
      some ⟨bigDoc, [[], bigDoc], []⟩ ∧
    joinStrs '\n' [[], bigDoc] ≠ bigDoc := by
  have hch : chunksOf defaultCacheConfig.chunk_size bigDoc = [[], bigDoc] := by
    rw [chunksOf, bigDoc_split_newline, chunkGroups]
    rw [if_pos (by rw [show wordCount bigDoc = 1001 from wordCount_bigLine 1000]; decide),
      chunkGroups]
    rw [if_neg (by decide)]
    rfl
  refine ⟨?_, ?_, ?_⟩
  · rw [cache_doc]
    rw [hch]
    rfl
  · rw [get_cached_doc_eq_of_stored _ _ _ _ _ _ rfl]
    dsimp only
    rw [if_neg (by decide), if_pos (by decide)]
  · have hjoin : joinStrs '\n' [[], bigDoc] = '\n' :: bigDoc := rfl
    rw [hjoin]
    intro h
    have hlen := congrArg List.length h
    rw [List.length_cons] at hlen
    omega

/-! ## Claim C9: chunk retrieval -/

/-- C9: `get_cached_chunk` yields a chunk only when the backing entry passes
the full validity check — it re-runs `get_cached_doc`, so existence, expiry
and checksum equality are all re-checked on every chunk access (first
conjunct); any index outside `[0, len(chunks))` yields `None` (second
conjunct), as does an invalid backing entry (third conjunct); the function
is total, so no exception is ever raised. -/
theorem c9_chunk_revalidation_and_bounds (cfg : CacheConfig)
    (hash : String → String) (st : CacheState) (files : List (String × String))
    (now : Int) (idx : Int) :
    ((get_cached_chunk cfg hash st files now idx).isSome = true →
      ∃ d, st.entry = some (.stored d) ∧ ¬now - d.timestamp > cfg.cache_expiry ∧
        dictBeq (calculate_file_checksums hash files) d.checksums = true) ∧
    (∀ b, get_cached_doc cfg hash st files now = some b →
      (idx < 0 ∨ (b.chunks.length : Int) ≤ idx) →
      get_cached_chunk cfg hash st files now idx = none) ∧
    (get_cached_doc cfg hash st files now = none →
      get_cached_chunk cfg hash st files now idx = none) := by
  refine ⟨?_, ?_, ?_⟩
  · intro h
    rcases hdoc : get_cached_doc cfg hash st files now with _ | b
    · rw [get_cached_chunk, hdoc] at h
      simp at h
    · refine (get_cached_doc_isSome_iff cfg hash st files now).mp ?_
      rw [hdoc]
      rfl
  · intro b hb hrange
    rw [get_cached_chunk, hb]
    show (if h : 0 ≤ idx ∧ idx.toNat < b.chunks.length then
        some (b.chunks.get ⟨idx.toNat, h.2⟩) else none) = none
    rw [dif_neg]
    rintro ⟨h1, h2⟩
    rcases hrange with h | h <;> omega
  · intro hdoc
    rw [get_cached_chunk, hdoc]

/-- C9, witness: for a valid one-chunk entry, index `5` and index `-1` both
return `None`. -/
theorem c9_witness :
    get_cached_chunk defaultCacheConfig (fun s => s)
      ⟨some (.stored ⟨0, [], [], [['a']], []⟩)⟩ [] 10 5 = none ∧
    get_cached_chunk defaultCacheConfig (fun s => s)
      ⟨some (.stored ⟨0, [], [], [['a']], []⟩)⟩ [] 10 (-1) = none :=
  ⟨(c9_chunk_revalidation_and_bounds defaultCacheConfig (fun s => s)
      ⟨some (.stored ⟨0, [], [], [['a']], []⟩)⟩ [] 10 5).2.1 ⟨[], [['a']], []⟩
      (by decide) (Or.inr (by decide)),
   (c9_chunk_revalidation_and_bounds defaultCacheConfig (fun s => s)
      ⟨some (.stored ⟨0, [], [], [['a']], []⟩)⟩ [] 10 (-1)).2.1 ⟨[], [['a']], []⟩
      (by decide) (Or.inl (by decide))⟩

/-! ## Claim C5: graph construction error handling -/

theorem filterMap_guard {α β : Type} (p : α → Bool) (h : α → β) (l : List α) :
    l.filterMap (fun a => if p a then some (h a) else none) = (l.filter p).map h := by
  induction l with
  | nil => rfl
  | cons a t ih =>
    rw [List.filterMap_cons]
    by_cases hp : p a
    · rw [List.filter_cons_of_pos hp, List.map_cons, ← ih]
      simp [hp]
    · rw [List.filter_cons_of_neg (by simpa using hp), ← ih]
      simp [hp]

/-- C5, counterexample: the claim says a file whose content fails to parse
is **omitted** from the graph mapping.  It is not: `analyze_code_relationships`
catches the parse failure itself and returns the `'error'` dict, so
`_get_relationships`'s `try/except: continue` never fires and `bad.py`
appears in the mapping with an error record. -/
theorem c5_counterexample :
    get_relationships
      (fun c => if c = "ok" then Except.ok ⟨[], [], [], [], none⟩
        else Except.error "SyntaxError")
      [("good.py", "ok"), ("bad.py", "broken")] =
      some [("good.py", ⟨[], [], [], [], none⟩),
        ("bad.py", ⟨[], [], [], [], some "Error analyzing bad.py: SyntaxError"⟩)] ∧
    "bad.py" ∈ ([("good.py", (⟨[], [], [], [], none⟩ : RelRecordE)),
      ("bad.py", ⟨[], [], [], [], some "Error analyzing bad.py: SyntaxError"⟩)].map
        Prod.fst) := by
  constructor
  · decide
  · decide

/-- C5, amended: a file whose content fails to parse is *included* in the
graph mapping with an error record (error message set, empty imports /
functions / variables) — extraction of every other file is unaffected; the
build returns the distinguishable `None` ("no relationships available")
exactly when the repository has no `.py` files at all, so an all-failed
build still returns a graph of error records rather than the failure
value. -/
theorem c5_parse_failure_included_not_omitted
    (parse : String → Except String RelRecordE) (files : List (String × String)) :
    (get_relationships parse files = none ↔
      (files.filter (fun f => strEndsWith f.1 ".py")).isEmpty = true) ∧
    (∀ f c e, (f, c) ∈ files → strEndsWith f ".py" = true → parse c = .error e →
      (f, (⟨[], [], [], [], some ("Error analyzing " ++ f ++ ": " ++ e)⟩ : RelRecordE)) ∈
        (get_relationships parse files).getD []) := by
  have hshape : files.filterMap (fun f =>
      if strEndsWith f.1 ".py" then
        some (f.1, analyze_code_relationships parse f.1 f.2)
      else none) =
      (files.filter (fun f => strEndsWith f.1 ".py")).map
        (fun f => (f.1, analyze_code_relationships parse f.1 f.2)) :=
    filterMap_guard _ _ files
  constructor
  · rw [get_relationships]
    rw [hshape]
    have hmap : ((files.filter (fun f => strEndsWith f.1 ".py")).map
        (fun f => (f.1, analyze_code_relationships parse f.1 f.2))).isEmpty =
        (files.filter (fun f => strEndsWith f.1 ".py")).isEmpty := by
      cases files.filter (fun f => strEndsWith f.1 ".py") <;> rfl
    by_cases h : (files.filter (fun f => strEndsWith f.1 ".py")).isEmpty = true
    · rw [if_pos (hmap.trans h)]
      simp [h]
    · rw [if_neg (fun hc => h (hmap.symm.trans hc))]
      simp [h]
  · intro f c e hmem hpy herr
    have hmem2 : (f, analyze_code_relationships parse f c) ∈ files.filterMap (fun g =>
        if strEndsWith g.1 ".py" then
          some (g.1, analyze_code_relationships parse g.1 g.2)
        else none) :=
      List.mem_filterMap.mpr ⟨(f, c), hmem, by simp [hpy]⟩
    have hrec : analyze_code_relationships parse f c =
        ⟨[], [], [], [], some ("Error analyzing " ++ f ++ ": " ++ e)⟩ := by
      rw [analyze_code_relationships, herr]
    have hne : ¬(files.filterMap (fun g =>
        if strEndsWith g.1 ".py" then
          some (g.1, analyze_code_relationships parse g.1 g.2)
        else none)).isEmpty := by
      rw [List.isEmpty_iff]
      intro hemp
      rw [hemp] at hmem2
      cases hmem2
    rw [get_relationships]
    rw [if_neg (by simpa using hne)]
    rw [Option.getD_some]
    rw [hrec] at hmem2
    exact hmem2

/-- C5, witness: an empty repository yields the `None` failure value, and a
repository whose single `.py` file fails to parse yields a graph containing
that file with its error record. -/
theorem c5_witness :
    get_relationships (fun _ => Except.error "SyntaxError") [] = none ∧
    ("bad.py", (⟨[], [], [], [], some "Error analyzing bad.py: SyntaxError"⟩ : RelRecordE)) ∈
      (get_relationships (fun _ => Except.error "SyntaxError")
        [("bad.py", "broken")]).getD [] :=
  ⟨(c5_parse_failure_included_not_omitted (fun _ => Except.error "SyntaxError") []).1.mpr
      (by decide),
   (c5_parse_failure_included_not_omitted (fun _ => Except.error "SyntaxError")
      [("bad.py", "broken")]).2 "bad.py" "broken" "SyntaxError" (by decide) (by decide) rfl⟩

/-! ## Claim C6: exclusion of `.git` & co. -/

/-- Is some path component one of the excluded directory names? -/
def underExcludedDir (p : String) : Bool :=
  (splitOnChar '/' p.toList).any (fun comp => exclude_dirs.any (fun d => d.toList == comp))

theorem renderEntry_names :
    ∀ (pfx : String) (b : Bool) (t : FsTree),
      excludedName (entryName t) = false →
      ∀ pr nm, (pr, nm) ∈ renderEntry pfx b t → excludedName nm = false := by
  apply renderEntry.induct
    (motive_1 := fun pfx b t => excludedName (entryName t) = false →
      ∀ pr nm, (pr, nm) ∈ renderEntry pfx b t → excludedName nm = false)
    (motive_2 := fun pfx n i l =>
      ∀ pr nm, (pr, nm) ∈ renderList pfx n i l → excludedName nm = false)
  · intro pfx isLast n hex pr nm hmem
    rw [renderEntry] at hmem
    have := List.mem_singleton.mp hmem
    have hnm : nm = n := congrArg Prod.snd this
    rw [hnm]
    exact hex
  · intro pfx isLast n children ih hex pr nm hmem
    rw [renderEntry] at hmem
    rcases List.mem_cons.mp hmem with h1 | h2
    · have hnm : nm = n := congrArg Prod.snd h1
      rw [hnm]
      exact hex
    · exact ih pr nm h2
  · intro pfx n i pr nm hmem
    rw [renderList] at hmem
    cases hmem
  · intro pfx n i e rest ih1 ih2 pr nm hmem
    rw [renderList] at hmem
    rcases List.mem_append.mp hmem with h1 | h2
    · by_cases hex : excludedName (entryName e) = true
      · rw [if_pos hex] at h1
        cases h1
      · rw [if_neg hex] at h1
        exact ih1 (by simpa using hex) pr nm h1
    · exact ih2 pr nm h2

theorem renderList_names (pfx : String) (n : Nat) :
    ∀ (i : Nat) (l : List FsTree) (pr nm : String),
      (pr, nm) ∈ renderList pfx n i l → excludedName nm = false := by
  intro i l
  induction l generalizing i with
  | nil =>
    intro pr nm h
    rw [renderList] at h
    cases h
  | cons e rest ih =>
    intro pr nm h
    rw [renderList] at h
    rcases List.mem_append.mp h with h1 | h2
    · by_cases hex : excludedName (entryName e) = true
      · rw [if_pos hex] at h1
        cases h1
      · rw [if_neg hex] at h1
        exact renderEntry_names pfx _ e (by simpa using hex) pr nm h1
    · exact ih (i + 1) pr nm h2

mutual
/-- Remove excluded entries *and their entire subtrees* from a forest. -/
def pruneTree : FsTree → FsTree
  | .file n => .file n
  | .dir n cs => .dir n (pruneForest cs)
def pruneForest : List FsTree → List FsTree
  | [] => []
  | e :: rest =>
    if excludedName (entryName e) then pruneForest rest
    else pruneTree e :: pruneForest rest
end

mutual
/-- Every entry name in a tree, parent before children. -/
def treeNames : FsTree → List String
  | .file n => [n]
  | .dir n cs => n :: forestNames cs
def forestNames : List FsTree → List String
  | [] => []
  | t :: ts => treeNames t ++ forestNames ts
end

/-- The names rendered below one entry are exactly the names of that
entry's *pruned* subtree: once an entry is skipped nothing below it is
ever rendered. -/
theorem renderEntry_names_pruned :
    ∀ (pfx : String) (b : Bool) (t : FsTree),
      (renderEntry pfx b t).map Prod.snd = treeNames (pruneTree t) := by
  apply renderEntry.induct
    (motive_1 := fun pfx b t =>
      (renderEntry pfx b t).map Prod.snd = treeNames (pruneTree t))
    (motive_2 := fun pfx n i l =>
      (renderList pfx n i l).map Prod.snd = forestNames (pruneForest l))
  · intro pfx isLast n
    rw [renderEntry, pruneTree, treeNames]
    simp
  · intro pfx isLast n children ih
    rw [renderEntry, pruneTree, treeNames, List.map_cons, ih]
  · intro pfx n i
    rw [renderList, pruneForest, forestNames]
    rfl
  · intro pfx n i e rest ih1 ih2
    rw [renderList, List.map_append, ih2, pruneForest]
    by_cases hex : excludedName (entryName e) = true
    · rw [if_pos hex, if_pos hex]
      simp
    · rw [if_neg hex, if_neg hex, forestNames, ih1]

/-- The names rendered from a forest are exactly the names of the pruned
forest: excluded entries and everything beneath them contribute nothing. -/
theorem renderList_names_pruned (pfx : String) (n : Nat) :
    ∀ (i : Nat) (l : List FsTree),
      (renderList pfx n i l).map Prod.snd = forestNames (pruneForest l) := by
  intro i l
  induction l generalizing i with
  | nil => rfl
  | cons e rest ih =>
    rw [renderList, List.map_append, ih (i + 1), pruneForest]
    by_cases hex : excludedName (entryName e) = true
    · rw [if_pos hex, if_pos hex]
      simp
    · rw [if_neg hex, if_neg hex, forestNames, renderEntry_names_pruned]

/-- C6, counterexample: the claim says files under `.git` are never included
in the stored checksum map or the relationship graph.  They are: neither
`_calculate_file_checksums` nor `_get_relationships` prunes directories
during `os.walk`, so `.git/hooks/x.py` gets a checksum and a graph entry. -/
theorem c6_counterexample :
    underExcludedDir ".git/hooks/x.py" = true ∧
    ".git/hooks/x.py" ∈ (calculate_file_checksums (fun s => s)
      [(".git/hooks/x.py", "a"), ("main.py", "b")]).map Prod.fst ∧
    ((get_relationships (fun _ => Except.ok ⟨[], [], [], [], none⟩)
      [(".git/hooks/x.py", "a")]).getD []).map Prod.fst = [".git/hooks/x.py"] := by
  refine ⟨by decide, by decide, by decide⟩

/-- C6, amended: only **tree rendering** honours the exclusion list: no
rendered entry bears an excluded name (first conjunct), and excluded
directories are never descended into — the rendered names are exactly the
names of the forest with excluded entries *and their whole subtrees*
pruned, so a file under `.git` is never rendered (second conjunct).  The
checksum map and the relationship graph do **not** exclude those
directories: the checksum keys are exactly the files with allowed
extensions anywhere under the root, and the graph keys are exactly the
`.py` files anywhere under the root, `.git` and friends included. -/
theorem c6_exclusions_apply_to_tree_only (hash : String → String)
    (parse : String → Except String RelRecordE)
    (files : List (String × String)) (cs : List FsTree) :
    (∀ pr nm, (pr, nm) ∈ tree_pairs cs → excludedName nm = false) ∧
    (tree_pairs cs).map Prod.snd =
      forestNames (pruneForest (sortEnts (sortChildren cs))) ∧
    (calculate_file_checksums hash files).map Prod.fst =
      (files.filter (fun f => eligibleExt f.1)).map Prod.fst ∧
    (∀ rels, get_relationships parse files = some rels →
      rels.map Prod.fst =
        (files.filter (fun f => strEndsWith f.1 ".py")).map Prod.fst) := by
  refine ⟨?_, ?_, calc_keys hash files, ?_⟩
  · intro pr nm h
    rw [tree_pairs] at h
    exact renderList_names _ _ _ _ pr nm h
  · rw [tree_pairs]
    exact renderList_names_pruned _ _ 0 _
  · intro rels h
    rw [get_relationships, filterMap_guard] at h
    split at h
    · cases h
    · have := (Option.some.injEq _ _).mp h
      rw [← this, List.map_map]
      rfl

/-- C6, witness: a rendered entry of a concrete tree is non-excluded; a
concrete tree holding a `.git` directory with a file inside renders only
`main.py` — nothing under `.git` is descended into; and the checksum keys
and graph keys of a one-file `.git` repository are exactly the
extension-filtered walk (which *includes* the `.git` file). -/
theorem c6_witness :
    excludedName "main.py" = false ∧
    (tree_pairs [FsTree.dir ".git" [FsTree.file "x.py"], FsTree.file "main.py"]).map
      Prod.snd = ["main.py"] ∧
    (calculate_file_checksums (fun s => s) [(".git/x.py", "a")]).map Prod.fst =
      ([(".git/x.py", "a")].filter (fun f => eligibleExt f.1)).map Prod.fst ∧
    [(".git/x.py", (⟨[], [], [], [], none⟩ : RelRecordE))].map Prod.fst =
      ([(".git/x.py", "a")].filter (fun f => strEndsWith f.1 ".py")).map Prod.fst :=
  ⟨(c6_exclusions_apply_to_tree_only (fun s => s)
      (fun _ => Except.ok ⟨[], [], [], [], none⟩)
      [(".git/x.py", "a")] [FsTree.file "main.py"]).1 ("" ++ "└── ") "main.py"
      (by
        have hx : excludedName (entryName (FsTree.file "main.py")) = false := by decide
        simp [tree_pairs, sortChildren, sortTree, sortEnts, insertEnt, renderList,
          renderEntry, hx]),
   ((c6_exclusions_apply_to_tree_only (fun s => s)
      (fun _ => Except.ok ⟨[], [], [], [], none⟩)
      [(".git/x.py", "a")]
      [FsTree.dir ".git" [FsTree.file "x.py"], FsTree.file "main.py"]).2.1.trans
      (by
        have h1 : entLt (FsTree.file "main.py")
            (FsTree.dir ".git" [FsTree.file "x.py"]) = false := by decide
        have h2 : excludedName (entryName
            (FsTree.dir ".git" [FsTree.file "x.py"])) = true := by decide
        have h3 : excludedName (entryName (FsTree.file "main.py")) = false := by decide
        simp [sortChildren, sortTree, sortEnts, insertEnt, h1, pruneForest, pruneTree,
          forestNames, treeNames, h2, h3])),
   (c6_exclusions_apply_to_tree_only (fun s => s)
      (fun _ => Except.ok ⟨[], [], [], [], none⟩)
      [(".git/x.py", "a")] [FsTree.file "main.py"]).2.2.1,
   (c6_exclusions_apply_to_tree_only (fun s => s)
      (fun _ => Except.ok ⟨[], [], [], [], none⟩)
      [(".git/x.py", "a")] [FsTree.file "main.py"]).2.2.2
      [(".git/x.py", ⟨[], [], [], [], none⟩)] (by decide)⟩

/-! ## Claim C7: generation vs. caching failure -/

/-- C7: the claim (backed by the repository's own integration test) says a
failed cache persist is contained and the in-memory documentation result is
still returned.  The code violates it: `_generate_documentation` always
hands `cache_doc` the documentation **dict**, `cache_doc` immediately calls
`.split('\n')` on it — *outside* the `try` that guards only the file write —
so an `AttributeError` escapes to `_generate_documentation`'s blanket
`except`, which returns `None`: for every repository the built result is
swallowed and the caller sees "Failed to generate documentation" (first
conjunct).  The write-level containment the claim describes does hold
inside `cache_doc` when it is given a string, as the cache's own unit tests
use it: a failing write returns normally and leaves the state unchanged
(second conjunct) — the defect is precisely the dict passed by the
handler. -/
theorem c7_generation_swallows_result_on_cache_error
    (parse : String → Except String RelRecordE) (cfg : CacheConfig)
    (hash : String → String) (root_children : List FsTree)
    (files : List (String × String)) (now : Int) (writeOk : Bool)
    (st : CacheState) (s : Str) (metadata : List (String × JVal)) :
    generate_documentation parse cfg hash root_children files now writeOk st =
      (none, st) ∧
    cache_doc cfg hash files now (.str s) metadata false st = .ok st :=
  ⟨rfl, rfl⟩

/-! ## Claim C8: handler chunk access vs. cache chunk access -/

/-- C8, counterexample: caching an *empty* documentation string stores the
single chunk `''`; the cache-level accessor returns it (`some ''`), but the
handler's `if chunk:` truthiness test treats `''` like `None`, so
`get_documentation_chunk` returns `None` for a known repository — the two
accessors disagree, hence no pure delegation. -/
theorem c8_counterexample :
    cache_doc defaultCacheConfig (fun s => s) [] 0 (.str []) [] true ⟨none⟩ =
      .ok ⟨some (.stored ⟨0, [], [], [[]], []⟩)⟩ ∧
    get_cached_chunk defaultCacheConfig (fun s => s)
      ⟨some (.stored ⟨0, [], [], [[]], []⟩)⟩ [] 0 0 = some [] ∧
    (get_documentation_chunk (fun _ => some "/repo") defaultCacheConfig (fun s => s)
      ⟨some (.stored ⟨0, [], [], [[]], []⟩)⟩ [] 0 ⟨[]⟩ "/repo" 0).1 = none := by
  refine ⟨rfl, by decide, by decide⟩

/-- C8, amended: for a repository that passes the known-repository guard,
`get_documentation_chunk` serves a chunk memoized in `loaded_chunks` first;
when the repository has no loaded chunks it delegates to `get_cached_chunk`
**up to Python truthiness**: a non-empty cache chunk is returned as-is, but
both `None` and the empty string become `None`. -/
theorem c8_delegation_up_to_truthiness (git_root : String → Option String)
    (cfg : CacheConfig) (hash : String → String) (cst : CacheState)
    (files : List (String × String)) (now : Int) (h : HandlerState)
    (repo_path : String) (idx : Int)
    (hguard : (git_root repo_path).isNone = false) :
    (h.loaded_chunks.lookup repo_path = none →
      (get_documentation_chunk git_root cfg hash cst files now h repo_path idx).1 =
        match get_cached_chunk cfg hash cst files now idx with
        | some c => if c.isEmpty then none else some c
        | none => none) ∧
    (∀ lc, h.loaded_chunks.lookup repo_path = some lc →
      0 ≤ idx → ∀ hlen : idx.toNat < lc.length,
      (get_documentation_chunk git_root cfg hash cst files now h repo_path idx).1 =
        some (lc.get ⟨idx.toNat, hlen⟩)) := by
  constructor
  · intro hnl
    rcases hcc : get_cached_chunk cfg hash cst files now idx with _ | c
    · simp [get_documentation_chunk, load_chunk_from_cache, hguard, hnl, hcc]
    · by_cases hc : c.isEmpty = true
      · simp [get_documentation_chunk, load_chunk_from_cache, hguard, hnl, hcc, hc]
      · simp [get_documentation_chunk, load_chunk_from_cache, hguard, hnl, hcc, hc]
  · intro lc hsome h0 hlen
    rw [get_documentation_chunk, if_neg (by simp [hguard]), hsome]
    show (if hi : 0 ≤ idx ∧ idx.toNat < lc.length then
        (some (lc.get ⟨idx.toNat, hi.2⟩), h)
      else load_chunk_from_cache cfg hash cst files now h repo_path idx).1 =
      some (lc.get ⟨idx.toNat, hlen⟩)
    rw [dif_pos ⟨h0, hlen⟩]

/-- C8, witness: with no loaded chunks the handler returns the (non-empty)
cache chunk; with a loaded chunk present it is served from `loaded_chunks`. -/
theorem c8_witness :
    (get_documentation_chunk (fun _ => some "/repo") defaultCacheConfig (fun s => s)
      ⟨some (.stored ⟨0, [], [], [['a']], []⟩)⟩ [] 0 ⟨[]⟩ "/repo" 0).1 = some ['a'] ∧
    (get_documentation_chunk (fun _ => some "/repo") defaultCacheConfig (fun s => s)
      ⟨none⟩ [] 0 ⟨[("/repo", [['b']])]⟩ "/repo" 0).1 = some ['b'] := by
  constructor
  · have h1 := (c8_delegation_up_to_truthiness (fun _ => some "/repo")
      defaultCacheConfig (fun s => s) ⟨some (.stored ⟨0, [], [], [['a']], []⟩)⟩
      [] 0 ⟨[]⟩ "/repo" 0 (by decide)).1 rfl
    rw [h1]
    decide
  · have h2 := (c8_delegation_up_to_truthiness (fun _ => some "/repo")
      defaultCacheConfig (fun s => s) ⟨none⟩ [] 0 ⟨[("/repo", [['b']])]⟩
      "/repo" 0 (by decide)).2 [['b']] rfl (by decide) (by decide)
    rw [h2]
    rfl
